import Mathlib

/-!
Verification of the Riskify threat-detection core.

This file gives a shallow embedding of the two modules that make up the
prediction-enhancement pipeline of the repository:

* `textProcessor.ts` — `cleanText`, `extractFeatures`, `extractEntities`,
  `calculateRiskIndicators`, `processText`;
* `threatDetector.ts` — `enhanceWithRules`, `fallbackPrediction`,
  `calculateRiskLevel`, `predict`, `batchPredict` and the bounded FIFO
  prediction cache.

JavaScript numbers are modelled as exact rationals (ℚ); strings as Lean
`String`.  The JavaScript regular expressions used by the source are
modelled by a small backtracking matcher (`RE` / `mAll`) that reproduces
the relevant ECMAScript semantics: leftmost match, greedy quantifiers with
backtracking, ordered alternation, case-insensitive flags, and `\b` word
boundaries.  `Map` objects are modelled as association lists in insertion
order, which is exactly the iteration order JavaScript guarantees.
-/

namespace Riskify

/-! ### A small model of the ECMAScript regular expressions the source uses -/

/-- JavaScript `\w`: ASCII letters, digits and underscore. -/
def isWordChar (c : Char) : Bool :=
  c.isAlpha || c.isDigit || c = '_'

/-- JavaScript `\s` (restricted to the whitespace characters occurring in
the repository's inputs). -/
def isJsWs (c : Char) : Bool :=
  c.isWhitespace

/-- Regular-expression term shapes, covering exactly the constructs
appearing in the source's regex literals. -/
inductive RE where
  | eps : RE
  | cls (p : Char → Bool) : RE
  | wb : RE
  | seq (a b : RE) : RE
  | alt (a b : RE) : RE
  | opt (a : RE) : RE
  | rep (a : RE) (lo : Nat) (hi : Option Nat) : RE

/-- ECMAScript `\b`: the previous and next characters disagree on
word-char-ness (string edges count as non-word). -/
def wordBoundary (prev : Option Char) (s : List Char) : Bool :=
  let a := match prev with
    | some c => isWordChar c
    | none => false
  let b := match s with
    | c :: _ => isWordChar c
    | [] => false
  a != b

/-- Backtracking matcher.  `mAll fuel re prev s` returns, in the order an
ECMAScript engine would try them (greedy quantifiers longest-first,
alternation left-first), every pair (last consumed char, remaining input)
a match of `re` can leave behind.  `prev` is the character immediately
before the current position (for `\b`).  `fuel` bounds recursion depth;
repetition bodies must consume input, so any fuel beyond the recursion
depth yields the complete and correct answer. -/
def mAll : Nat → RE → Option Char → List Char → List (Option Char × List Char)
  | 0, _, _, _ => []
  | Nat.succ f, re, prev, s =>
    match re with
    | RE.eps => [(prev, s)]
    | RE.cls p =>
      match s with
      | [] => []
      | c :: rest => if p c then [(some c, rest)] else []
    | RE.wb => if wordBoundary prev s then [(prev, s)] else []
    | RE.seq a b =>
      (mAll f a prev s).flatMap (fun pr => mAll f b pr.1 pr.2)
    | RE.alt a b => mAll f a prev s ++ mAll f b prev s
    | RE.opt a => mAll f a prev s ++ [(prev, s)]
    | RE.rep a lo hi =>
      match lo, hi with
      | 0, some 0 => [(prev, s)]
      | 0, _ =>
        ((mAll f a prev s).flatMap (fun pr =>
          if pr.2.length < s.length then
            mAll f (RE.rep a 0 (hi.map (· - 1))) pr.1 pr.2
          else [])) ++ [(prev, s)]
      | Nat.succ l, _ =>
        (mAll f a prev s).flatMap (fun pr =>
          if pr.2.length < s.length then
            mAll f (RE.rep a l (hi.map (· - 1))) pr.1 pr.2
          else [])

/-- Fuel that comfortably dominates the recursion depth of `mAll` for every
pattern in the repository on the given input. -/
def reFuel (s : List Char) : Nat :=
  120 * (s.length + 2)

/-- Length of the (unique, first-preference) match of `re` at the current
position, if any — the match the ECMAScript engine reports. -/
def matchLenAt (re : RE) (prev : Option Char) (s : List Char) : Option Nat :=
  match (mAll (reFuel s) re prev s).head? with
  | some pr => some (s.length - pr.2.length)
  | none => none

/-- One step of the `String.prototype.match` global scan: try the pattern at
each successive position; on a match, emit it and resume right after it
(advancing one character on an empty match, as `lastIndex` handling does). -/
def jsScan (re : RE) : Nat → Option Char → List Char → List (List Char)
  | 0, _, _ => []
  | Nat.succ f, prev, s =>
    match matchLenAt re prev s with
    | some len =>
      let matched := s.take len
      match len, s with
      | 0, [] => [matched]
      | 0, c :: rest => matched :: jsScan re f (some c) rest
      | Nat.succ _, _ =>
        matched :: jsScan re f (matched.getLastD ' ') (s.drop len)
    | none =>
      match s with
      | [] => []
      | c :: rest => jsScan re f (some c) rest

/-- The `text.match(re)` with the `g` flag: the list of matched substrings, in
order (empty list where JavaScript returns `null`). -/
def jsMatchAll (re : RE) (s : String) : List String :=
  (jsScan re (s.length + 1) none s.toList).map (fun cs => String.mk cs)

/-- The `re.test(text)`: does the pattern match anywhere? -/
def reTest (re : RE) (s : String) : Bool :=
  !(jsMatchAll re s).isEmpty

/-- A literal character (case-sensitive). -/
def lit (c : Char) : RE :=
  RE.cls (fun x => x = c)

/-- A literal character under the `i` flag (ASCII case folding). -/
def ciChar (c : Char) : RE :=
  RE.cls (fun x => x.toLower = c.toLower)

/-- Sequencing a list of patterns. -/
def seqL : List RE → RE
  | [] => RE.eps
  | [r] => r
  | r :: rs => RE.seq r (seqL rs)

/-- Ordered alternation of a list of patterns (left alternative first, as
ECMAScript tries them). -/
def altL : List RE → RE
  | [] => RE.cls (fun _ => false)
  | [r] => r
  | r :: rs => RE.alt r (altL rs)

/-- A case-insensitive literal string. -/
def ciStr (t : String) : RE :=
  seqL (t.toList.map ciChar)

def digitC : RE := RE.cls Char.isDigit

def alphaC : RE := RE.cls Char.isAlpha

/-- The `[a-zA-Z0-9-]`. -/
def alnumDash : RE := RE.cls (fun c => c.isAlpha || c.isDigit || c = '-')

/-- The `.` (any character except line terminators). -/
def anyDot : RE := RE.cls (fun c => !(c = '\n' || c = '\r'))

/-- The `\s+`. -/
def wsPlus : RE := RE.rep (RE.cls isJsWs) 1 none

/-- The `\s*`. -/
def wsStar : RE := RE.rep (RE.cls isJsWs) 0 none

end Riskify

namespace Riskify

/-! ### `textProcessor.ts` -/

/-- The `toLowerCase()` (ASCII), written as a structural map over the character
list so that it evaluates inside the kernel. -/
def jsToLower (s : String) : String :=
  String.mk (s.toList.map Char.toLower)

/-- The `toUpperCase()` (ASCII). -/
def jsToUpper (s : String) : String :=
  String.mk (s.toList.map Char.toUpper)

/-- The `trim()`: strip leading and trailing whitespace. -/
def jsTrim (s : String) : String :=
  String.mk
    (((s.toList.dropWhile Char.isWhitespace).reverse.dropWhile
      Char.isWhitespace).reverse)

/-- Split on a non-empty separator, leftmost and non-overlapping, keeping
boundary empties — JavaScript `split(sep)`.  The fuel argument is
structural and any value above the input length is exact. -/
def splitOnCharsAux (sep : List Char) :
    Nat → List Char → List Char → List (List Char)
  | 0, _, acc => [acc.reverse]
  | Nat.succ f, cs, acc =>
    match cs with
    | [] => [acc.reverse]
    | c :: rest =>
      if sep.isPrefixOf (c :: rest) then
        acc.reverse :: splitOnCharsAux sep f ((c :: rest).drop sep.length) []
      else
        splitOnCharsAux sep f rest (c :: acc)

/-- JavaScript `s.split(sep)` for a string separator. -/
def jsSplitOn (s sep : String) : List String :=
  if sep = "" then [s]
  else
    (splitOnCharsAux sep.toList (s.toList.length + 1) s.toList []).map
      (fun cs => String.mk cs)

/-- Collapse runs of whitespace to single spaces:
`cleaned.replace(/\s+/g, ' ')`. -/
def collapseWs (s : String) : String :=
  String.mk ((s.toList.map (fun c => if isJsWs c then ' ' else c)).foldr
    (fun c acc =>
      if c = ' ' then
        match acc with
        | ' ' :: _ => acc
        | _ => ' ' :: acc
      else c :: acc) [])

/-- The characters the source's second `replace` call actually keeps.  The
regex literal is `/[^\\w\\s\\.\\!\\?\\@\\-\\_]/g`; inside a regex literal
each `\\` is an escaped (literal) backslash, so the character class reads
backslash, `w`, backslash, `s`, …, with the `-` between two backslashes
forming the degenerate range backslash-to-backslash.  The negated class
therefore keeps only the eight literal characters below — not word
characters and whitespace as the surrounding comment intends. -/
def keptByReplace (c : Char) : Bool :=
  c = '\\' || c = 'w' || c = 's' || c = '.' || c = '!' || c = '?' ||
  c = '@' || c = '_'

/-- The `cleanText` from `textProcessor.ts`: empty-string guard, lowercase,
whitespace collapse, character replacement, trim. -/
def cleanText (text : String) : String :=
  if text = "" then ""
  else
    jsTrim (String.mk ((collapseWs (jsToLower text)).toList.map
      (fun c => if keptByReplace c then c else ' ')))

/-- JavaScript `s.split(/\s+/)`: whitespace runs are separators, boundary
separators contribute empty strings, and `"".split` gives `[""]`. -/
def jsSplitWs (s : String) : List String :=
  jsSplitOn (collapseWs s) " "

/-- Occurrence count in the source's style: `s.split(kw).length - 1`
(non-overlapping, left to right). -/
def occCount (s kw : String) : Nat :=
  (jsSplitOn s kw).length - 1

/-- JavaScript `s.includes(kw)` for the non-empty keywords the source
uses. -/
def jsIncludes (s kw : String) : Bool :=
  decide (0 < occCount s kw)

/-- The `[...new Set(xs)]`: deduplication keeping first occurrences in
encounter order. -/
def jsSetDedup (xs : List String) : List String :=
  xs.foldl (fun acc x => if acc.contains x then acc else acc ++ [x]) []

/-- The threat vocabulary of `extractFeatures` — note the source lists
`exploit` both fifth and last. -/
def featureThreatKeywords : List String :=
  ["ddos", "attack", "hack", "breach", "exploit", "malware", "virus",
   "ransomware", "phishing", "credentials", "password", "leak",
   "selling", "buying", "urgent", "cheap", "free", "download",
   "builder", "kit", "tool", "botnet", "payload", "exploit"]

/-- The `extractFeatures` from `textProcessor.ts`: unigrams of length > 2,
then adjacent-pair bigrams, then one `THREAT_<KW>` flag per vocabulary
entry whose text occurs in the cleaned string. -/
def extractFeatures (text : String) : List String :=
  let cleaned := cleanText text
  let words := (jsSplitWs cleaned).filter (fun w => w.length > 2)
  let bigrams := (words.zip words.tail).map (fun pr => pr.1 ++ "_" ++ pr.2)
  let flags := featureThreatKeywords.filterMap (fun kw =>
    if jsIncludes cleaned kw then some ("THREAT_" ++ jsToUpper kw) else none)
  words ++ bigrams ++ flags

structure ExtractedEntities where
  targets : List String
  dates : List String
  tools : List String
  urls : List String
  ips : List String
  deriving DecidableEq, Repr

/-- Regex `/(?:https?:\/\/)?(?:www\.)?([a-zA-Z0-9-]+\.[a-zA-Z]{2,}(?:\.[a-zA-Z]{2,})?)/gi`. -/
def urlRE : RE :=
  seqL [RE.opt (seqL [ciStr "http", RE.opt (ciChar 's'),
                      lit ':', lit '/', lit '/']),
        RE.opt (ciStr "www."),
        RE.rep alnumDash 1 none, lit '.',
        RE.rep alphaC 2 none,
        RE.opt (seqL [lit '.', RE.rep alphaC 2 none])]

/-- Regex `/\b(?:[0-9]{1,3}\.){3}[0-9]{1,3}\b/g`. -/
def ipRE : RE :=
  seqL [RE.wb,
        RE.rep (seqL [RE.rep digitC 1 (some 3), lit '.']) 3 (some 3),
        RE.rep digitC 1 (some 3), RE.wb]

/-- The date/time regex of `extractEntities`, alternatives in source
order. -/
def dateRE : RE :=
  seqL [RE.wb,
        altL [ciStr "monday", ciStr "tuesday", ciStr "wednesday",
              ciStr "thursday", ciStr "friday", ciStr "saturday",
              ciStr "sunday", ciStr "today", ciStr "tomorrow",
              ciStr "yesterday",
              seqL [RE.rep digitC 1 (some 2), lit '/',
                    RE.rep digitC 1 (some 2), lit '/',
                    RE.rep digitC 2 (some 4)],
              seqL [RE.rep digitC 1 (some 2), lit '-',
                    RE.rep digitC 1 (some 2), lit '-',
                    RE.rep digitC 2 (some 4)],
              seqL [RE.rep digitC 1 (some 2), lit ':',
                    RE.rep digitC 2 (some 2),
                    RE.opt (seqL [wsStar,
                                  altL [ciStr "am", ciStr "pm",
                                        ciStr "utc", ciStr "gmt"]])]],
        RE.wb]

/-- The eleven tool patterns of `extractEntities`, in source order. -/
def toolREs : List RE :=
  [seqL [ciStr "ransomware", wsPlus,
         altL [ciStr "builder", ciStr "kit", ciStr "tool"]],
   seqL [ciStr "phishing", wsPlus,
         altL [ciStr "kit", ciStr "tool", ciStr "framework"]],
   seqL [altL [ciStr "ddos", ciStr "dos"], wsPlus,
         altL [ciStr "tool", ciStr "bot", ciStr "botnet"]],
   seqL [altL [ciStr "exploit", ciStr "vulnerability"], wsPlus,
         altL [ciStr "kit", ciStr "scanner"]],
   ciStr "keylogger",
   ciStr "botnet",
   seqL [ciStr "crypto", wsPlus, ciStr "locker"],
   seqL [ciStr "email", wsPlus, altL [ciStr "templates", ciStr "harvester"]],
   seqL [ciStr "credential", wsPlus, altL [ciStr "harvester", ciStr "stealer"]],
   seqL [ciStr "network", wsPlus, ciStr "scanner"],
   seqL [ciStr "social", wsPlus, ciStr "engineering", wsPlus, ciStr "toolkit"]]

/-- The `extractEntities` from `textProcessor.ts`: URL/domain matches feed both
`urls` and `targets` (deduplicated as matched, original casing); tool
matches are gathered across all eleven patterns, lowercased, then
deduplicated. -/
def extractEntities (text : String) : ExtractedEntities :=
  let urls := jsMatchAll urlRE text
  { urls := jsSetDedup urls
    targets := jsSetDedup urls
    ips := jsSetDedup (jsMatchAll ipRE text)
    dates := jsSetDedup (jsMatchAll dateRE text)
    tools := jsSetDedup ((toolREs.flatMap (fun p => jsMatchAll p text)).map
      jsToLower) }

structure RiskIndicators where
  highRiskCount : ℚ
  mediumRiskCount : ℚ
  toolCount : ℚ
  urgencyScore : ℚ
  commercialScore : ℚ
  deriving DecidableEq, Repr

def highRiskKeywords : List String :=
  ["ddos", "attack", "hack", "ransomware", "selling", "buying", "exploit"]

def mediumRiskKeywords : List String :=
  ["urgent", "cheap", "free", "test", "new", "kit"]

def toolKeywords : List String :=
  ["builder", "tool", "bot", "payload", "framework"]

/-- Regex `/urgent|asap|immediate|now|today|tonight|tomorrow/i`. -/
def urgencyRE : RE :=
  altL [ciStr "urgent", ciStr "asap", ciStr "immediate", ciStr "now",
        ciStr "today", ciStr "tonight", ciStr "tomorrow"]

/-- Regex `/sell|buy|price|cheap|free|cost|payment|money/i`. -/
def commercialRE : RE :=
  altL [ciStr "sell", ciStr "buy", ciStr "price", ciStr "cheap",
        ciStr "free", ciStr "cost", ciStr "payment", ciStr "money"]

/-- The `calculateRiskIndicators` from `textProcessor.ts`: split-based
occurrence counts over the cleaned text, regex flags over the raw text. -/
def calculateRiskIndicators (text : String) : RiskIndicators :=
  let cleaned := cleanText text
  { highRiskCount :=
      (((highRiskKeywords.map (fun kw => occCount cleaned kw)).sum : ℕ) : ℚ)
    mediumRiskCount :=
      (((mediumRiskKeywords.map (fun kw => occCount cleaned kw)).sum : ℕ) : ℚ)
    toolCount :=
      (((toolKeywords.map (fun kw => occCount cleaned kw)).sum : ℕ) : ℚ)
    urgencyScore := if reTest urgencyRE text then 1 else 0
    commercialScore := if reTest commercialRE text then 1 else 0 }

structure ProcessedText where
  cleaned : String
  features : List String
  entities : ExtractedEntities
  deriving DecidableEq, Repr

/-- The `processText` from `textProcessor.ts`. -/
def processText (text : String) : ProcessedText :=
  { cleaned := cleanText text
    features := extractFeatures text
    entities := extractEntities text }

end Riskify

namespace Riskify

/-! ### `threatDetector.ts` -/

/-- JavaScript `(q).toFixed(0)` for the rational model (every value the
source formats this way is an integer, where rounding mode is moot). -/
def ratFixed0 (q : ℚ) : String :=
  toString (round q)

/-- JavaScript `(q).toFixed(1)` for the rational model (display only; no
claim inspects the digits). -/
def ratFixed1 (q : ℚ) : String :=
  let n := round (q * 10)
  toString (n / 10) ++ "." ++ toString (n % 10).natAbs

structure ClassifierResult where
  label : String
  score : ℚ
  deriving DecidableEq, Repr

/-- Lines 116–131 of `threatDetector.ts`: derive the threat probability
from the first classifier result.  `prediction.score || 0.5` maps the
falsy score 0 to 0.5; a NEGATIVE sentiment label keeps the score, any
other label flips it. -/
def threatProbOf (modelOutput : List ClassifierResult) : ℚ :=
  match modelOutput with
  | [] => 0.5
  | prediction :: _ =>
    let baseConfidence := if prediction.score = 0 then 0.5 else prediction.score
    if prediction.label = "NEGATIVE" then baseConfidence else 1 - baseConfidence

structure EnhanceResult where
  riskScore : ℚ
  confidence : ℚ
  explanation : String
  deriving DecidableEq, Repr

/-- Regex `/ddos|dos\s+attack|denial.of.service/i` (the dots are the any-char
metacharacter). -/
def ddosRE : RE :=
  altL [ciStr "ddos",
        seqL [ciStr "dos", wsPlus, ciStr "attack"],
        seqL [ciStr "denial", anyDot, ciStr "of", anyDot, ciStr "service"]]

/-- Regex `/phishing|phish|credential.harvest|fake.login/i`. -/
def phishingRE : RE :=
  altL [ciStr "phishing", ciStr "phish",
        seqL [ciStr "credential", anyDot, ciStr "harvest"],
        seqL [ciStr "fake", anyDot, ciStr "login"]]

/-- Regex `/ransom|encrypt|crypto.lock|file.lock/i`. -/
def ransomwareRE : RE :=
  altL [ciStr "ransom", ciStr "encrypt",
        seqL [ciStr "crypto", anyDot, ciStr "lock"],
        seqL [ciStr "file", anyDot, ciStr "lock"]]

/-- The `enhanceWithRules` from `threatDetector.ts`.  The source mutates
`riskScore` and `explanationParts` through a fixed sequence of guarded
boosts; the numbered lets mirror those assignments in order (a guard that
fires updates both variables, so each condition appears once per
variable). -/
def enhanceWithRules (text : String) (baseThreatProbability : ℚ)
    (riskIndicators : RiskIndicators) : EnhanceResult :=
  let riskScore0 := baseThreatProbability
  let confidence0 := |baseThreatProbability - 0.5| * 2
  let parts0 : List String := []
  let boostHigh := min (riskIndicators.highRiskCount * 0.2) 0.4
  let riskScore1 :=
    if riskIndicators.highRiskCount > 0 then riskScore0 + boostHigh
    else riskScore0
  let parts1 :=
    if riskIndicators.highRiskCount > 0 then
      parts0 ++ ["High-risk keywords detected (+" ++
                 ratFixed0 (boostHigh * 100) ++ "%)"]
    else parts0
  let boostTool := min (riskIndicators.toolCount * 0.15) 0.3
  let riskScore2 :=
    if riskIndicators.toolCount > 0 then riskScore1 + boostTool
    else riskScore1
  let parts2 :=
    if riskIndicators.toolCount > 0 then
      parts1 ++ ["Cybersecurity tools mentioned (+" ++
                 ratFixed0 (boostTool * 100) ++ "%)"]
    else parts1
  let riskScore3 :=
    if riskIndicators.commercialScore > 0 then riskScore2 + 0.25
    else riskScore2
  let parts3 :=
    if riskIndicators.commercialScore > 0 then
      parts2 ++ ["Commercial language detected (+25%)"]
    else parts2
  let riskScore4 :=
    if riskIndicators.urgencyScore > 0 then riskScore3 + 0.15
    else riskScore3
  let parts4 :=
    if riskIndicators.urgencyScore > 0 then
      parts3 ++ ["Urgency indicators found (+15%)"]
    else parts3
  let riskScore5 := if reTest ddosRE text then riskScore4 + 0.3 else riskScore4
  let parts5 :=
    if reTest ddosRE text then parts4 ++ ["DDoS attack pattern detected (+30%)"]
    else parts4
  let riskScore6 :=
    if reTest phishingRE text then riskScore5 + 0.3 else riskScore5
  let parts6 :=
    if reTest phishingRE text then parts5 ++ ["Phishing pattern detected (+30%)"]
    else parts5
  let riskScore7 :=
    if reTest ransomwareRE text then riskScore6 + 0.3 else riskScore6
  let parts7 :=
    if reTest ransomwareRE text then
      parts6 ++ ["Ransomware pattern detected (+30%)"]
    else parts6
  let riskScore8 := min (max riskScore7 0) 1
  let ruleBoost := (parts7.length : ℚ) * 0.1
  let confidence1 := min (confidence0 + ruleBoost) 0.95
  let explanation :=
    if parts7.length > 0 then
      "Model prediction enhanced by rules: " ++ String.intercalate ", " parts7
    else
      "Base model prediction (" ++ ratFixed1 (baseThreatProbability * 100) ++
      "% threat probability)"
  { riskScore := riskScore8, confidence := confidence1,
    explanation := explanation }

/-- The `calculateRiskLevel` from `threatDetector.ts`. -/
def calculateRiskLevel (riskScore : ℚ) : String :=
  if riskScore ≥ 0.7 then "high"
  else if riskScore ≥ 0.4 then "medium"
  else "low"

structure ThreatPrediction where
  label : String
  confidence : ℚ
  riskScore : ℚ
  riskLevel : String
  entities : ExtractedEntities
  explanation : String
  features : List String
  processingTime : ℚ
  deriving DecidableEq, Repr

def fallbackThreatKeywords : List String :=
  ["ddos", "attack", "hack", "ransomware", "phishing", "exploit",
   "malware", "botnet", "breach", "leak", "credentials", "payload"]

def fallbackCommercialKeywords : List String :=
  ["selling", "buying", "cheap", "free", "price"]

def fallbackUrgencyKeywords : List String :=
  ["urgent", "now", "today", "asap", "immediate"]

/-- The `fallbackPrediction` from `threatDetector.ts`.  Keyword tests run on
the lowercased raw text; the `riskIndicators` argument is accepted but,
as in the source, never read. -/
def fallbackPrediction (text : String) (processed : ProcessedText)
    (riskIndicators : RiskIndicators) (elapsed : ℚ) : ThreatPrediction :=
  let riskScore0 : ℚ := 0.1
  let parts0 : List String := ["Using rule-based fallback"]
  let foundThreats :=
    fallbackThreatKeywords.filter (fun kw => jsIncludes (jsToLower text) kw)
  let riskScore1 :=
    if foundThreats.length > 0 then
      riskScore0 + (foundThreats.length : ℚ) * 0.2
    else riskScore0
  let parts1 :=
    if foundThreats.length > 0 then
      parts0 ++ ["Threat keywords: " ++ String.intercalate ", " foundThreats]
    else parts0
  let foundCommercial :=
    fallbackCommercialKeywords.filter (fun kw => jsIncludes (jsToLower text) kw)
  let riskScore2 :=
    if foundCommercial.length > 0 then riskScore1 + 0.25 else riskScore1
  let parts2 :=
    if foundCommercial.length > 0 then
      parts1 ++ ["Commercial language detected"]
    else parts1
  let hasUrgency :=
    fallbackUrgencyKeywords.any (fun kw => jsIncludes (jsToLower text) kw)
  let riskScore3 := if hasUrgency then riskScore2 + 0.15 else riskScore2
  let parts3 :=
    if hasUrgency then parts2 ++ ["Urgency indicators found"] else parts2
  let riskScore4 := min riskScore3 1
  { label := if riskScore4 > 0.5 then "threat" else "benign"
    confidence := min ((foundThreats.length : ℚ) * 0.2 + 0.3) 0.8
    riskScore := riskScore4
    riskLevel := calculateRiskLevel riskScore4
    entities := processed.entities
    explanation := String.intercalate "; " parts3
    features := processed.features.take 10
    processingTime := elapsed }

end Riskify

namespace Riskify

/-! ### The prediction cache and the `predict` / `batchPredict` orchestration

`Map<string, ThreatPrediction>` is modelled as an association list in
insertion order (JavaScript's guaranteed iteration order): `set` on a
present key overwrites in place, on an absent key appends; `delete`
removes the entry; `keys().next().value` is the head's key. -/

abbrev Cache := List (String × ThreatPrediction)

def mapGet (m : Cache) (k : String) : Option ThreatPrediction :=
  (m.find? (fun kv => kv.1 == k)).map (fun kv => kv.2)

def mapSet (m : Cache) (k : String) (v : ThreatPrediction) : Cache :=
  if m.any (fun kv => kv.1 == k) then
    m.map (fun kv => if kv.1 == k then (k, v) else kv)
  else m ++ [(k, v)]

/-- The `const firstKey = cache.keys().next().value; cache.delete(firstKey)`. -/
def dropFirstEntry (m : Cache) : Cache :=
  match m.head? with
  | some kv => m.eraseP (fun x => x.1 == kv.1)
  | none => m

/-- Lines 147–154 of `threatDetector.ts`: store the result, then evict the
oldest-inserted entry if the size exceeds 100. -/
def cachePut (m : Cache) (k : String) (v : ThreatPrediction) : Cache :=
  let m1 := mapSet m k v
  if m1.length > 100 then dropFirstEntry m1 else m1

/-- The cache key: `text.toLowerCase().trim()`. -/
def normKey (text : String) : String :=
  jsTrim (jsToLower text)

/-- The model environment: whether loading the external classifier (either
pipeline attempt) eventually succeeds, and the classifier itself as a
fallible function. -/
structure MEnv where
  loadOk : Bool
  classifier : String → Except Unit (List ClassifierResult)

/-- Model state: the `isReady` flag, whether `this.classifier` is set, and
the prediction cache.  (`isLoading` is set and reset within a single
sequential `initialize` call, so it carries no information here.) -/
structure MState where
  isReady : Bool
  hasClassifier : Bool
  cache : Cache
  deriving Repr

/-- The `initialize` from `threatDetector.ts`, sequential behavior: an early
return when already ready; otherwise the pipeline load either succeeds
(setting the classifier and the ready flag) or the final `cpuError` is
rethrown to the caller. -/
def initModel (env : MEnv) (st : MState) : Except Unit MState :=
  if st.isReady then Except.ok st
  else if env.loadOk then
    Except.ok { st with isReady := true, hasClassifier := true }
  else Except.error ()

/-- Lines 133–145 of `threatDetector.ts`: run the Score Enhancer and
assemble the returned prediction record. -/
def assembleResult (text : String) (modelOutput : List ClassifierResult)
    (processed : ProcessedText) (riskIndicators : RiskIndicators)
    (elapsed : ℚ) : ThreatPrediction :=
  let enhanced := enhanceWithRules text (threatProbOf modelOutput) riskIndicators
  { label := if enhanced.riskScore > 0.5 then "threat" else "benign"
    confidence := enhanced.confidence
    riskScore := enhanced.riskScore
    riskLevel := calculateRiskLevel enhanced.riskScore
    entities := processed.entities
    explanation := enhanced.explanation
    features := processed.features.take 10
    processingTime := elapsed }

/-- The `predict` from `threatDetector.ts` as a state transformer.  `elapsed`
stands for `performance.now() - startTime` at whichever point the call
returns.  The third component counts invocations of the external
classifier made by this call.  Control flow mirrors the source: cache hit
returns a copy of the cached record with a fresh `processingTime`; a
failed lazy initialization propagates (the `await this.initialize()` is
outside the try block, as is the `Model not initialized` throw); only an
exception from the classifier call itself is caught and answered by
`fallbackPrediction`, whose result is not cached. -/
def predictM (env : MEnv) (st : MState) (text : String) (elapsed : ℚ) :
    Except Unit ThreatPrediction × MState × Nat :=
  let cacheKey := normKey text
  match mapGet st.cache cacheKey with
  | some cached => (Except.ok { cached with processingTime := elapsed }, st, 0)
  | none =>
    match initModel env st with
    | Except.error e => (Except.error e, st, 0)
    | Except.ok st1 =>
      if !st1.hasClassifier then (Except.error (), st1, 0)
      else
        let processed := processText text
        let riskIndicators := calculateRiskIndicators text
        match env.classifier text with
        | Except.error _ =>
          (Except.ok (fallbackPrediction text processed riskIndicators elapsed),
           st1, 1)
        | Except.ok modelOutput =>
          let result :=
            assembleResult text modelOutput processed riskIndicators elapsed
          (Except.ok result,
           { st1 with cache := cachePut st1.cache cacheKey result }, 1)

/-- The safe default a failed batch item is replaced with
(lines 324–333). -/
def safeDefaultPrediction : ThreatPrediction :=
  { label := "benign"
    confidence := 0.1
    riskScore := 0.1
    riskLevel := "low"
    entities := { targets := [], dates := [], tools := [], urls := [], ips := [] }
    explanation := "Error in prediction - defaulting to benign"
    features := []
    processingTime := 0 }

/-- The `batchPredict` from `threatDetector.ts`: sequential, each item's
`predict` error caught and replaced by the safe default. -/
def batchPredictM (env : MEnv) :
    MState → List (String × ℚ) → List ThreatPrediction × MState
  | st, [] => ([], st)
  | st, (t, e) :: rest =>
    match predictM env st t e with
    | (Except.ok p, st1, _) =>
      let tl := batchPredictM env st1 rest
      (p :: tl.1, tl.2)
    | (Except.error _, st1, _) =>
      let tl := batchPredictM env st1 rest
      (safeDefaultPrediction :: tl.1, tl.2)

end Riskify

namespace Riskify

/-! ### Helper lemmas -/

lemma ite_add_form (c : Prop) [Decidable c] (x b : ℚ) :
    (if c then x + b else x) = x + (if c then b else 0) := by
  split_ifs <;> simp

lemma ite_append_len (c : Prop) [Decidable c] (l : List String) (a : String) :
    (if c then l ++ [a] else l).length = l.length + (if c then 1 else 0) := by
  split_ifs <;> simp

/-- All values of a cache satisfy `P`. -/
def CacheAll (P : ThreatPrediction → Prop) (m : Cache) : Prop :=
  ∀ kv ∈ m, P kv.2

lemma cacheAll_get {P : ThreatPrediction → Prop} {m : Cache} {k : String}
    {v : ThreatPrediction} (hm : CacheAll P m) (h : mapGet m k = some v) :
    P v := by
  unfold mapGet at h
  cases hfind : m.find? (fun kv => kv.1 == k) with
  | none => rw [hfind] at h; simp at h
  | some kv =>
    rw [hfind] at h
    simp only [Option.map_some'] at h
    exact (Option.some.inj h) ▸ hm kv (List.mem_of_find?_eq_some hfind)

lemma mem_mapSet {m : Cache} {k : String} {v : ThreatPrediction}
    {kv : String × ThreatPrediction} (h : kv ∈ mapSet m k v) :
    kv = (k, v) ∨ kv ∈ m := by
  unfold mapSet at h
  split_ifs at h with hk
  · obtain ⟨x, hx, hxe⟩ := List.mem_map.1 h
    by_cases hxk : x.1 == k
    · rw [if_pos hxk] at hxe
      exact Or.inl hxe.symm
    · rw [if_neg hxk] at hxe
      exact Or.inr (hxe ▸ hx)
  · rcases List.mem_append.1 h with hin | hin
    · exact Or.inr hin
    · simp at hin
      exact Or.inl (by simp [hin])

lemma mem_cachePut {m : Cache} {k : String} {v : ThreatPrediction}
    {kv : String × ThreatPrediction} (h : kv ∈ cachePut m k v) :
    kv = (k, v) ∨ kv ∈ m := by
  simp only [cachePut] at h
  split_ifs at h with hlen
  · simp only [dropFirstEntry] at h
    cases hh : (mapSet m k v).head? with
    | none => rw [hh] at h; exact mem_mapSet h
    | some kv0 =>
      rw [hh] at h
      exact mem_mapSet ((List.eraseP_sublist _).subset h)
  · exact mem_mapSet h

lemma cacheAll_put {P : ThreatPrediction → Prop} {m : Cache} {k : String}
    {v : ThreatPrediction} (hm : CacheAll P m) (hv : P v) :
    CacheAll P (cachePut m k v) := by
  intro kv hkv
  rcases mem_cachePut hkv with h | h
  · rw [h]; exact hv
  · exact hm kv h

/-- Generic preservation through one `predict` call: if `P` survives a
`processingTime` rewrite, holds of every assembled success record, and
holds of every fallback record, then a call on a `P`-cache returns only
`P` predictions and leaves a `P`-cache. -/
lemma predictM_all (P : ThreatPrediction → Prop)
    (hTime : ∀ p e, P p → P { p with processingTime := e })
    (hMk : ∀ text mo processed ri elapsed,
      P (assembleResult text mo processed ri elapsed))
    (hFb : ∀ text processed ri elapsed,
      P (fallbackPrediction text processed ri elapsed))
    (env : MEnv) (st : MState) (text : String) (elapsed : ℚ)
    (hcache : CacheAll P st.cache) :
    (∀ p, (predictM env st text elapsed).1 = Except.ok p → P p) ∧
    CacheAll P (predictM env st text elapsed).2.1.cache := by
  cases hget : mapGet st.cache (normKey text) with
  | some cached =>
    refine ⟨fun p hp => ?_, ?_⟩
    · simp only [predictM, hget] at hp
      cases hp
      exact hTime cached elapsed (cacheAll_get hcache hget)
    · simp only [predictM, hget]
      exact hcache
  | none =>
    cases hinit : initModel env st with
    | error e =>
      refine ⟨fun p hp => ?_, ?_⟩
      · simp only [predictM, hget, hinit] at hp
        exact Except.noConfusion hp
      · simp only [predictM, hget, hinit]
        exact hcache
    | ok st1 =>
      have hst1 : st1.cache = st.cache := by
        unfold initModel at hinit
        split_ifs at hinit with h1 h2 <;> cases hinit <;> rfl
      cases hcl : st1.hasClassifier with
      | true =>
        cases hc : env.classifier text with
        | error err =>
          refine ⟨fun p hp => ?_, ?_⟩
          · simp only [predictM, hget, hinit, hcl, Bool.not_true,
              Bool.false_eq_true, if_false, hc] at hp
            cases hp
            exact hFb _ _ _ _
          · simp only [predictM, hget, hinit, hcl, Bool.not_true,
              Bool.false_eq_true, if_false, hc]
            rw [hst1]
            exact hcache
        | ok mo =>
          refine ⟨fun p hp => ?_, ?_⟩
          · simp only [predictM, hget, hinit, hcl, Bool.not_true,
              Bool.false_eq_true, if_false, hc] at hp
            cases hp
            exact hMk text mo _ _ elapsed
          · simp only [predictM, hget, hinit, hcl, Bool.not_true,
              Bool.false_eq_true, if_false, hc]
            exact cacheAll_put (hst1 ▸ hcache) (hMk text mo _ _ elapsed)
      | false =>
        refine ⟨fun p hp => ?_, ?_⟩
        · simp only [predictM, hget, hinit, hcl, Bool.not_false, if_true] at hp
          exact Except.noConfusion hp
        · simp only [predictM, hget, hinit, hcl, Bool.not_false, if_true]
          rw [hst1]
          exact hcache

/-- Generic preservation through `batchPredict`. -/
lemma batchPredictM_all (P : ThreatPrediction → Prop)
    (hTime : ∀ p e, P p → P { p with processingTime := e })
    (hMk : ∀ text mo processed ri elapsed,
      P (assembleResult text mo processed ri elapsed))
    (hFb : ∀ text processed ri elapsed,
      P (fallbackPrediction text processed ri elapsed))
    (hSafe : P safeDefaultPrediction)
    (env : MEnv) :
    ∀ msgs st, CacheAll P st.cache →
      ∀ p ∈ (batchPredictM env st msgs).1, P p := by
  intro msgs
  induction msgs with
  | nil =>
    intro st hcache p hp
    simp [batchPredictM] at hp
  | cons hd rest ih =>
    intro st hcache p hp
    obtain ⟨t, e⟩ := hd
    have hstep := predictM_all P hTime hMk hFb env st t e hcache
    rcases hres : predictM env st t e with ⟨r, st1, n⟩
    cases r with
    | ok q =>
      simp only [batchPredictM, hres, List.mem_cons] at hp
      rcases hp with rfl | hp
      · exact hstep.1 p (by rw [hres])
      · exact ih st1 (by have h2 := hstep.2; rwa [hres] at h2) p hp
    | error err =>
      simp only [batchPredictM, hres, List.mem_cons] at hp
      rcases hp with rfl | hp
      · exact hSafe
      · exact ih st1 (by have h2 := hstep.2; rwa [hres] at h2) p hp

end Riskify

namespace Riskify

/-- Boundedness of the two numeric scores of a prediction. -/
def PredBounded (q : ThreatPrediction) : Prop :=
  0 ≤ q.riskScore ∧ q.riskScore ≤ 1 ∧ 0 ≤ q.confidence ∧ q.confidence ≤ 1

instance (q : ThreatPrediction) : Decidable (PredBounded q) :=
  inferInstanceAs (Decidable (_ ∧ _ ∧ _ ∧ _))

/-- Consistency of `label` and `riskLevel` with the documented thresholds
on `riskScore`. -/
def LabelConsistent (q : ThreatPrediction) : Prop :=
  (q.label = "threat" ↔ q.riskScore > 0.5) ∧
  (q.riskLevel = "high" ↔ q.riskScore ≥ 0.7) ∧
  (q.riskLevel = "medium" ↔ 0.4 ≤ q.riskScore ∧ q.riskScore < 0.7) ∧
  (q.riskLevel = "low" ↔ q.riskScore < 0.4)

instance (q : ThreatPrediction) : Decidable (LabelConsistent q) :=
  inferInstanceAs (Decidable (_ ∧ _ ∧ _ ∧ _))

lemma enhance_bounds (text : String) (p : ℚ) (ri : RiskIndicators) :
    0 ≤ (enhanceWithRules text p ri).riskScore ∧
    (enhanceWithRules text p ri).riskScore ≤ 1 ∧
    0 ≤ (enhanceWithRules text p ri).confidence ∧
    (enhanceWithRules text p ri).confidence ≤ 1 := by
  simp only [enhanceWithRules]
  refine ⟨le_min (le_max_right _ _) (by norm_num), min_le_right _ _,
    le_min ?_ (by norm_num), (min_le_right _ _).trans (by norm_num)⟩
  positivity

lemma fallback_bounds (text : String) (processed : ProcessedText)
    (ri : RiskIndicators) (elapsed : ℚ) :
    PredBounded (fallbackPrediction text processed ri elapsed) := by
  simp only [fallbackPrediction, PredBounded]
  refine ⟨le_min ?_ (by norm_num), min_le_right _ _,
    le_min (by positivity) (by norm_num), (min_le_right _ _).trans (by norm_num)⟩
  split_ifs <;> positivity

lemma label_threshold_iff (rs : ℚ) :
    ((if rs > 0.5 then "threat" else "benign") = "threat") ↔ rs > 0.5 := by
  split_ifs with h <;> simp [h]

lemma level_high_iff (rs : ℚ) : calculateRiskLevel rs = "high" ↔ rs ≥ 0.7 := by
  unfold calculateRiskLevel
  split_ifs with h1 h2 <;> simp [h1]

lemma level_medium_iff (rs : ℚ) :
    calculateRiskLevel rs = "medium" ↔ 0.4 ≤ rs ∧ rs < 0.7 := by
  unfold calculateRiskLevel
  split_ifs with h1 h2
  · constructor
    · intro h; exact absurd h (by decide)
    · intro hh; exact absurd h1 (not_le.2 hh.2)
  · constructor
    · intro h; exact ⟨h2, not_le.1 h1⟩
    · intro hh; rfl
  · constructor
    · intro h; exact absurd h (by decide)
    · intro hh; exact absurd hh.1 h2

lemma level_low_iff (rs : ℚ) : calculateRiskLevel rs = "low" ↔ rs < 0.4 := by
  unfold calculateRiskLevel
  split_ifs with h1 h2
  · constructor
    · intro h; exact absurd h (by decide)
    · intro hh; exact absurd h1 (not_le.2 (hh.trans (by norm_num)))
  · constructor
    · intro h; exact absurd h (by decide)
    · intro hh; exact absurd h2 (not_le.2 hh)
  · constructor
    · intro h; exact not_le.1 h2
    · intro hh; rfl

lemma fallback_consistent (text : String) (processed : ProcessedText)
    (ri : RiskIndicators) (elapsed : ℚ) :
    LabelConsistent (fallbackPrediction text processed ri elapsed) := by
  unfold fallbackPrediction
  exact ⟨label_threshold_iff _, level_high_iff _, level_medium_iff _,
    level_low_iff _⟩

end Riskify

namespace Riskify

/-- The empty initial model state (`classifier = null`, nothing cached). -/
def mstate0 : MState :=
  { isReady := false, hasClassifier := false, cache := [] }

/-- An environment whose classifier load succeeds and whose classifier
answers every text with a high-confidence NEGATIVE sentiment. -/
def envNeg : MEnv :=
  { loadOk := true
    classifier := fun _ => Except.ok [{ label := "NEGATIVE", score := 0.9 }] }

/-- An environment whose classifier load succeeds but whose classifier
throws on every call. -/
def envThrow : MEnv :=
  { loadOk := true, classifier := fun _ => Except.error () }

/-- An environment where loading the classifier fails. -/
def envLoadFail : MEnv :=
  { loadOk := false, classifier := fun _ => Except.error () }

/-- The value of a successful result, or a default. -/
def okOr (r : Except Unit ThreatPrediction) (d : ThreatPrediction) :
    ThreatPrediction :=
  match r with
  | Except.ok p => p
  | Except.error _ => d

lemma safeDefault_bounded : PredBounded safeDefaultPrediction := by
  unfold PredBounded safeDefaultPrediction
  norm_num

lemma safeDefault_consistent : LabelConsistent safeDefaultPrediction := by
  unfold LabelConsistent safeDefaultPrediction
  norm_num
  exact ⟨by decide, by decide, by decide⟩

/-- C2: every prediction the system returns — from `predict` on a cache
whose entries are in bounds, from `fallbackPrediction`, or from
`batchPredict` (including its safe default) — has `riskScore` and
`confidence` in [0, 1], and the cache keeps this invariant. -/
theorem C2_predictions_bounded :
    (∀ env st text elapsed, CacheAll PredBounded st.cache →
      (∀ p, (predictM env st text elapsed).1 = Except.ok p → PredBounded p) ∧
      CacheAll PredBounded (predictM env st text elapsed).2.1.cache) ∧
    (∀ text processed ri elapsed,
      PredBounded (fallbackPrediction text processed ri elapsed)) ∧
    (∀ env msgs st, CacheAll PredBounded st.cache →
      ∀ p ∈ (batchPredictM env st msgs).1, PredBounded p) := by
  have hTime : ∀ p e, PredBounded p →
      PredBounded { p with processingTime := e } := fun p e hp => hp
  have hMk : ∀ text mo processed ri elapsed,
      PredBounded (assembleResult text mo processed ri elapsed) :=
    fun text mo _ ri _ => enhance_bounds text (threatProbOf mo) ri
  refine ⟨fun env st text elapsed h =>
      predictM_all PredBounded hTime hMk fallback_bounds env st text elapsed h,
    fallback_bounds,
    fun env msgs st h =>
      batchPredictM_all PredBounded hTime hMk fallback_bounds
        safeDefault_bounded env msgs st h⟩

/-- Witness for C2 at a concrete input: the empty cache satisfies the
invariant, and the prediction `predict` returns on it is in bounds. -/
theorem C2_predictions_bounded_witness :
    CacheAll PredBounded mstate0.cache ∧
    PredBounded (okOr (predictM envNeg mstate0 "buy now" 1).1
      safeDefaultPrediction) := by
  have hcache : CacheAll PredBounded mstate0.cache := by
    intro kv hkv
    simp [mstate0] at hkv
  exact ⟨hcache,
    (C2_predictions_bounded.1 envNeg mstate0 "buy now" 1 hcache).1 _ (by rfl)⟩

/-- C3: for every prediction the system returns (primary path on a
threshold-consistent cache, fallback path, or batch including its safe
default), `label = "threat"` iff `riskScore > 0.5`, `riskLevel = "high"`
iff `riskScore ≥ 0.7`, `riskLevel = "medium"` iff
`0.4 ≤ riskScore < 0.7`, and otherwise (`riskScore < 0.4`)
`riskLevel = "low"`. -/
theorem C3_threshold_consistency :
    (∀ env st text elapsed, CacheAll LabelConsistent st.cache →
      (∀ p, (predictM env st text elapsed).1 = Except.ok p →
        LabelConsistent p) ∧
      CacheAll LabelConsistent (predictM env st text elapsed).2.1.cache) ∧
    (∀ text processed ri elapsed,
      LabelConsistent (fallbackPrediction text processed ri elapsed)) ∧
    (∀ env msgs st, CacheAll LabelConsistent st.cache →
      ∀ p ∈ (batchPredictM env st msgs).1, LabelConsistent p) := by
  have hTime : ∀ p e, LabelConsistent p →
      LabelConsistent { p with processingTime := e } := fun p e hp => hp
  have hMk : ∀ text mo processed ri elapsed,
      LabelConsistent (assembleResult text mo processed ri elapsed) :=
    fun text mo _ ri _ =>
      ⟨label_threshold_iff _, level_high_iff _, level_medium_iff _,
        level_low_iff _⟩
  refine ⟨fun env st text elapsed h =>
      predictM_all LabelConsistent hTime hMk fallback_consistent
        env st text elapsed h,
    fallback_consistent,
    fun env msgs st h =>
      batchPredictM_all LabelConsistent hTime hMk fallback_consistent
        safeDefault_consistent env msgs st h⟩

/-- Witness for C3 at a concrete input. -/
theorem C3_threshold_consistency_witness :
    CacheAll LabelConsistent mstate0.cache ∧
    LabelConsistent (okOr (predictM envNeg mstate0 "sell today" 2).1
      safeDefaultPrediction) := by
  have hcache : CacheAll LabelConsistent mstate0.cache := by
    intro kv hkv
    simp [mstate0] at hkv
  exact ⟨hcache,
    (C3_threshold_consistency.1 envNeg mstate0 "sell today" 2 hcache).1 _
      (by rfl)⟩

end Riskify

namespace Riskify

/-- C1: `enhanceWithRules` returns exactly the claimed closed form — the
base probability plus the capped keyword/tool boosts, the flat
commercial/urgency boosts, and an independent flat 0.3 per matching attack
pattern, clamped to [0, 1]; and a confidence of
`min(|p − 0.5|·2 + 0.1·(number of triggered clauses), 0.95)`. -/
theorem C1_enhanceWithRules_closed_form (text : String) (p : ℚ)
    (ri : RiskIndicators) :
    (enhanceWithRules text p ri).riskScore =
      min (max (p
        + (if ri.highRiskCount > 0 then min (ri.highRiskCount * 0.2) 0.4 else 0)
        + (if ri.toolCount > 0 then min (ri.toolCount * 0.15) 0.3 else 0)
        + (if ri.commercialScore > 0 then 0.25 else 0)
        + (if ri.urgencyScore > 0 then 0.15 else 0)
        + (if reTest ddosRE text then 0.3 else 0)
        + (if reTest phishingRE text then 0.3 else 0)
        + (if reTest ransomwareRE text then 0.3 else 0)) 0) 1
    ∧ (enhanceWithRules text p ri).confidence =
      min (|p - 0.5| * 2 + 0.1 *
        ((((if ri.highRiskCount > 0 then 1 else 0)
        + (if ri.toolCount > 0 then 1 else 0)
        + (if ri.commercialScore > 0 then 1 else 0)
        + (if ri.urgencyScore > 0 then 1 else 0)
        + (if reTest ddosRE text then 1 else 0)
        + (if reTest phishingRE text then 1 else 0)
        + (if reTest ransomwareRE text then 1 else 0) : ℕ)) : ℚ)) 0.95 := by
  refine ⟨?_, ?_⟩
  · simp only [enhanceWithRules, ite_add_form]
  · simp only [enhanceWithRules, ite_add_form, ite_append_len,
      List.length_nil]
    push_cast
    ring_nf

/-- C5: the actual behavior of `cleanText` at the inputs the claim covers.
The double-escaped character class keeps only
`{'\', 'w', 's', '.', '!', '?', '@', '_'}`, so the letters of "hello" (and
the dash of "a-b") are all replaced by spaces and trimmed away, where the
claim requires every letter and digit to be preserved. -/
theorem C5_cleanText_at_failing_input :
    cleanText "hello" = "" ∧ cleanText "a-b" = "" ∧
    cleanText "Work was swift" = "w    w s sw" := by
  exact ⟨rfl, rfl, rfl⟩

/-- C9: the `extractFeatures` vocabulary does list "exploit" twice, but on
the failing input (whose intended cleaned form contains "exploit") the
actual cleaned form retains no letter of "exploit", so the
`THREAT_EXPLOIT` flag is emitted zero times, not twice. -/
theorem C9_threat_exploit_never_emitted :
    featureThreatKeywords.count "exploit" = 2 ∧
    cleanText "use the exploit now" = "s                w" ∧
    (extractFeatures "use the exploit now").count "THREAT_EXPLOIT" = 0 := by
  exact ⟨by decide, rfl, by decide⟩

def c6text : String := "Plan DDoS on examplebank.com this Friday at 3 AM UTC"

/-- C6 counterexample: with a classifier that always throws, `predict` on
the claim's input returns label "benign" (riskScore 0.3 is not above the
0.5 threshold), contradicting the claimed label "threat". -/
theorem C6_label_counterexample :
    (okOr (predictM envThrow mstate0 c6text 2).1 safeDefaultPrediction).label
      ≠ "threat" :=
  of_decide_eq_true (by with_unfolding_all rfl)

/-- C6 amended: with a classifier that always throws, `predict` on the
claim's input degrades to the fallback prediction, with riskScore exactly
0.3 (base 0.1 plus one 0.2 keyword boost for "ddos"), riskLevel "low",
and label "benign". -/
theorem C6_fallback_values :
    (predictM envThrow mstate0 c6text 2).1 =
      Except.ok (fallbackPrediction c6text (processText c6text)
        (calculateRiskIndicators c6text) 2) ∧
    (okOr (predictM envThrow mstate0 c6text 2).1 safeDefaultPrediction).label
      = "benign" ∧
    (okOr (predictM envThrow mstate0 c6text 2).1
      safeDefaultPrediction).riskScore = 0.3 ∧
    (okOr (predictM envThrow mstate0 c6text 2).1
      safeDefaultPrediction).riskLevel = "low" := by
  exact ⟨rfl, by with_unfolding_all rfl, by with_unfolding_all rfl,
    by with_unfolding_all rfl⟩

end Riskify

namespace Riskify

/-- C4 counterexample: when loading the classifier fails, `predict` does
not degrade to the Fallback Predictor — the load error propagates and the
caller observes it (`await this.initialize()` sits outside the try/catch
that guards the classifier call). -/
theorem C4_load_failure_counterexample :
    (predictM envLoadFail mstate0 "sample text" 1).1 = Except.error () := rfl

/-- C4 amended: a failed classifier load makes `predict` propagate the
error to the caller; the Fallback Predictor is engaged only when the
classifier invocation itself throws after a successful initialization. -/
theorem C4_error_paths :
    (∀ env st text elapsed, env.loadOk = false → st.isReady = false →
      mapGet st.cache (normKey text) = none →
      (predictM env st text elapsed).1 = Except.error ()) ∧
    (∀ env st text elapsed, env.loadOk = true → st.isReady = false →
      mapGet st.cache (normKey text) = none →
      env.classifier text = Except.error () →
      (predictM env st text elapsed).1 =
        Except.ok (fallbackPrediction text (processText text)
          (calculateRiskIndicators text) elapsed)) := by
  constructor
  · intro env st text elapsed hload hready hget
    have hinit : initModel env st = Except.error () := by
      unfold initModel
      rw [hready, hload]
      simp
    simp only [predictM, hget, hinit]
  · intro env st text elapsed hload hready hget hc
    have hinit : initModel env st =
        Except.ok { st with isReady := true, hasClassifier := true } := by
      unfold initModel
      rw [hready, hload]
      simp
    simp only [predictM, hget, hinit, hc, Bool.not_true, Bool.false_eq_true,
      if_false]

/-- Witness for C4's amended statement at concrete inputs. -/
theorem C4_error_paths_witness :
    (predictM envLoadFail mstate0 "abc" 0).1 = Except.error () ∧
    (predictM envThrow mstate0 "abc" 0).1 =
      Except.ok (fallbackPrediction "abc" (processText "abc")
        (calculateRiskIndicators "abc") 0) :=
  ⟨C4_error_paths.1 envLoadFail mstate0 "abc" 0 rfl rfl rfl,
   C4_error_paths.2 envThrow mstate0 "abc" 0 rfl rfl rfl rfl⟩

def c10text : String :=
  "Example.com and example.com got a Keylogger and a keylogger"

/-- C10: `extractEntities` deduplicates URL/domain matches case-sensitively
and keeps their original casing, so both spellings of the same domain
survive in `urls` and `targets`; the two casings of "keylogger" collapse
to one entry in `tools`, which alone is lowercased before
deduplication. -/
theorem C10_entity_dedup_casing :
    (extractEntities c10text).urls = ["Example.com", "example.com"] ∧
    (extractEntities c10text).targets = ["Example.com", "example.com"] ∧
    (extractEntities c10text).tools = ["keylogger"] :=
  ⟨rfl, rfl, rfl⟩

end Riskify

namespace Riskify

lemma dropFirstEntry_cons (a : String × ThreatPrediction) (l : Cache) :
    dropFirstEntry (a :: l) = l := by
  simp only [dropFirstEntry, List.head?_cons]
  exact List.eraseP_cons_of_pos (by simp)

lemma mapSet_length_le (m : Cache) (k : String) (v : ThreatPrediction) :
    (mapSet m k v).length ≤ m.length + 1 := by
  unfold mapSet
  split_ifs <;> simp

lemma mapSet_fresh (m : Cache) (k : String) (v : ThreatPrediction)
    (hf : ∀ kv ∈ m, (kv.1 == k) = false) :
    mapSet m k v = m ++ [(k, v)] := by
  unfold mapSet
  rw [if_neg]
  intro hany
  rw [List.any_eq_true] at hany
  obtain ⟨kv, hkv, hkvk⟩ := hany
  rw [hf kv hkv] at hkvk
  cases hkvk

lemma mapGet_none_fresh (m : Cache) (k : String) (h : mapGet m k = none) :
    ∀ kv ∈ m, (kv.1 == k) = false := by
  intro kv hkv
  unfold mapGet at h
  rw [Option.map_eq_none'] at h
  have h2 := List.find?_eq_none.1 h kv hkv
  simpa using h2

lemma mapGet_append_fresh (m : Cache) (k : String) (v : ThreatPrediction)
    (hf : ∀ kv ∈ m, (kv.1 == k) = false) :
    mapGet (m ++ [(k, v)]) k = some v := by
  induction m with
  | nil => simp [mapGet]
  | cons a l ih =>
    have ha := hf a (List.mem_cons_self a l)
    unfold mapGet at ih ⊢
    rw [List.cons_append, List.find?_cons_of_neg _ (by simp [ha])]
    exact ih (fun kv hkv => hf kv (List.mem_cons_of_mem a hkv))

lemma cachePut_fresh_get (m : Cache) (k : String) (v : ThreatPrediction)
    (hf : ∀ kv ∈ m, (kv.1 == k) = false) :
    mapGet (cachePut m k v) k = some v := by
  have hset := mapSet_fresh m k v hf
  simp only [cachePut, hset]
  split_ifs with h
  · cases m with
    | nil => simp at h
    | cons a l =>
      rw [List.cons_append, dropFirstEntry_cons]
      exact mapGet_append_fresh l k v
        (fun kv hkv => hf kv (List.mem_cons_of_mem a hkv))
  · exact mapGet_append_fresh m k v hf

/-- C7: the prediction cache stays at no more than 100 entries across
`predict` calls and across the raw store-then-evict step; when a fresh key
is stored into a full cache the evicted entry is exactly the
earliest-inserted one (the head of the insertion-ordered list); and a
cache hit leaves the cache untouched, so access order never affects
eviction. -/
theorem C7_cache_eviction :
    (∀ env st text elapsed, st.cache.length ≤ 100 →
      (predictM env st text elapsed).2.1.cache.length ≤ 100) ∧
    (∀ m k v, m.length ≤ 100 → (cachePut m k v).length ≤ 100) ∧
    (∀ m k v, m.length = 100 → (∀ kv ∈ m, (kv.1 == k) = false) →
      cachePut m k v = m.tail ++ [(k, v)]) ∧
    (∀ env st text elapsed cached,
      mapGet st.cache (normKey text) = some cached →
      (predictM env st text elapsed).2.1 = st) := by
  have hput : ∀ m k v, m.length ≤ 100 → (cachePut m k v).length ≤ 100 := by
    intro m k v hm
    simp only [cachePut]
    split_ifs with h
    · cases hset : mapSet m k v with
      | nil => simp [dropFirstEntry]
      | cons a l =>
        rw [dropFirstEntry_cons]
        have hlen := mapSet_length_le m k v
        rw [hset] at hlen
        simp only [List.length_cons] at hlen
        omega
    · omega
  refine ⟨?_, hput, ?_, ?_⟩
  · intro env st text elapsed hlen
    cases hget : mapGet st.cache (normKey text) with
    | some cached =>
      simp only [predictM, hget]
      exact hlen
    | none =>
      cases hinit : initModel env st with
      | error e =>
        simp only [predictM, hget, hinit]
        exact hlen
      | ok st1 =>
        have hst1 : st1.cache = st.cache := by
          unfold initModel at hinit
          split_ifs at hinit <;> cases hinit <;> rfl
        cases hcl : st1.hasClassifier with
        | true =>
          cases hc : env.classifier text with
          | error err =>
            simp only [predictM, hget, hinit, hcl, Bool.not_true,
              Bool.false_eq_true, if_false, hc]
            rw [hst1]
            exact hlen
          | ok mo =>
            simp only [predictM, hget, hinit, hcl, Bool.not_true,
              Bool.false_eq_true, if_false, hc]
            exact hput _ _ _ (hst1 ▸ hlen)
        | false =>
          simp only [predictM, hget, hinit, hcl, Bool.not_false, if_true]
          rw [hst1]
          exact hlen
  · intro m k v hlen hf
    have hset := mapSet_fresh m k v hf
    simp only [cachePut, hset]
    rw [if_pos]
    · cases m with
      | nil => simp at hlen
      | cons a l =>
        rw [List.cons_append, dropFirstEntry_cons]
        rfl
    · rw [List.length_append, hlen]
      simp
  · intro env st text elapsed cached hget
    simp only [predictM, hget]

def w100cache : Cache :=
  (List.range 100).map (fun i => (toString i, safeDefaultPrediction))

def w100st : MState :=
  { isReady := true, hasClassifier := true, cache := w100cache }

/-- Witness for C7 at concrete inputs: a full 100-entry cache, a fresh
101st key, and a cache-hit `predict` call. -/
theorem C7_cache_eviction_witness :
    (predictM envNeg w100st "0" 3).2.1.cache.length ≤ 100 ∧
    (cachePut w100cache "zz" safeDefaultPrediction).length ≤ 100 ∧
    cachePut w100cache "zz" safeDefaultPrediction =
      w100cache.tail ++ [("zz", safeDefaultPrediction)] ∧
    (predictM envNeg w100st "0" 3).2.1 = w100st :=
  ⟨C7_cache_eviction.1 envNeg w100st "0" 3 (by decide),
   C7_cache_eviction.2.1 w100cache "zz" safeDefaultPrediction (by decide),
   C7_cache_eviction.2.2.1 w100cache "zz" safeDefaultPrediction (by decide)
     (by decide),
   C7_cache_eviction.2.2.2 envNeg w100st "0" 3 safeDefaultPrediction rfl⟩

end Riskify

namespace Riskify

lemma predict_hit_shape (env : MEnv) (st : MState) (text : String)
    (elapsed : ℚ) (cached : ThreatPrediction)
    (hhit : mapGet st.cache (normKey text) = some cached) :
    predictM env st text elapsed =
      (Except.ok { cached with processingTime := elapsed }, st, 0) := by
  simp only [predictM, hhit]

lemma predict_success_shape (env : MEnv) (st st1 : MState) (text : String)
    (elapsed : ℚ) (out : List ClassifierResult)
    (hmiss : mapGet st.cache (normKey text) = none)
    (hinit : initModel env st = Except.ok st1)
    (hcl1 : st1.hasClassifier = true)
    (hc : env.classifier text = Except.ok out) :
    predictM env st text elapsed =
      (Except.ok (assembleResult text out (processText text)
          (calculateRiskIndicators text) elapsed),
       { st1 with cache := (cachePut st1.cache (normKey text)
           (assembleResult text out (processText text)
             (calculateRiskIndicators text) elapsed)) }, 1) := by
  simp only [predictM, hmiss, hinit, hcl1, Bool.not_true, Bool.false_eq_true,
    if_false, hc]

/-- C8 counterexample: with a classifier that always throws, the first
call's fallback result is not cached, so a second call with the same text
invokes the external classifier again — two invocations in total, not at
most one. -/
theorem C8_classifier_reinvoked_counterexample :
    (predictM envThrow mstate0 "abc def" 1).2.2 = 1 ∧
    (predictM envThrow (predictM envThrow mstate0 "abc def" 1).2.1
      "abc def" 2).2.2 = 1 :=
  ⟨rfl, rfl⟩

/-- C8 amended: for two sequential `predict` calls on texts equal after
lowercasing and trimming, provided the first call's classifier invocation
succeeds (so its result is cached), the classifier runs exactly once —
during the first call — and the second call answers from the cache: the
state is unchanged (the cached entry is not mutated) and the returned
record agrees with the first call's in every field except
`processingTime`, which is recomputed. -/
theorem C8_cache_idempotence (env : MEnv) (st : MState) (t1 t2 : String)
    (e1 e2 : ℚ) (out : List ClassifierResult)
    (hkey : normKey t1 = normKey t2)
    (hmiss : mapGet st.cache (normKey t1) = none)
    (hload : env.loadOk = true)
    (hready : st.isReady = true → st.hasClassifier = true)
    (hc : env.classifier t1 = Except.ok out) :
    (predictM env st t1 e1).2.2 = 1 ∧
    (predictM env (predictM env st t1 e1).2.1 t2 e2).2.2 = 0 ∧
    (predictM env (predictM env st t1 e1).2.1 t2 e2).2.1 =
      (predictM env st t1 e1).2.1 ∧
    ∀ p1, (predictM env st t1 e1).1 = Except.ok p1 →
      (predictM env (predictM env st t1 e1).2.1 t2 e2).1 =
        Except.ok { p1 with processingTime := e2 } := by
  obtain ⟨st1, hinit, hcl1, hcache1⟩ :
      ∃ st1, initModel env st = Except.ok st1 ∧
        st1.hasClassifier = true ∧ st1.cache = st.cache := by
    cases hr : st.isReady with
    | true =>
      refine ⟨st, ?_, hready hr, rfl⟩
      unfold initModel
      rw [hr]
      simp
    | false =>
      refine ⟨{ st with isReady := true, hasClassifier := true }, ?_, rfl, rfl⟩
      unfold initModel
      rw [hr, hload]
      simp
  have h1 := predict_success_shape env st st1 t1 e1 out hmiss hinit hcl1 hc
  have hfresh : ∀ kv ∈ st1.cache, (kv.1 == normKey t1) = false := by
    rw [hcache1]
    exact mapGet_none_fresh _ _ hmiss
  have hhit : mapGet (cachePut st1.cache (normKey t1)
        (assembleResult t1 out (processText t1)
          (calculateRiskIndicators t1) e1)) (normKey t2) =
      some (assembleResult t1 out (processText t1)
        (calculateRiskIndicators t1) e1) := by
    rw [← hkey]
    exact cachePut_fresh_get _ _ _ hfresh
  have e21 : (predictM env st t1 e1).2.1 =
      { st1 with cache := (cachePut st1.cache (normKey t1)
          (assembleResult t1 out (processText t1)
            (calculateRiskIndicators t1) e1)) } := by
    rw [h1]
  have h2 := predict_hit_shape env
      { st1 with cache := (cachePut st1.cache (normKey t1)
          (assembleResult t1 out (processText t1)
            (calculateRiskIndicators t1) e1)) } t2 e2
      (assembleResult t1 out (processText t1)
        (calculateRiskIndicators t1) e1) hhit
  refine ⟨by rw [h1], by rw [e21, h2], by rw [e21, h2], ?_⟩
  intro p1 hp1
  rw [h1] at hp1
  obtain rfl : assembleResult t1 out (processText t1)
      (calculateRiskIndicators t1) e1 = p1 := Except.ok.inj hp1
  rw [e21, h2]

/-- Witness for C8's amended statement at concrete inputs: two calls with
"Abc" and " abc " against a succeeding classifier. -/
theorem C8_cache_idempotence_witness :
    (predictM envNeg mstate0 "Abc" 1).2.2 = 1 ∧
    (predictM envNeg (predictM envNeg mstate0 "Abc" 1).2.1 " abc " 2).2.2
      = 0 ∧
    (predictM envNeg (predictM envNeg mstate0 "Abc" 1).2.1 " abc " 2).2.1 =
      (predictM envNeg mstate0 "Abc" 1).2.1 ∧
    (predictM envNeg (predictM envNeg mstate0 "Abc" 1).2.1 " abc " 2).1 =
      Except.ok { okOr (predictM envNeg mstate0 "Abc" 1).1 safeDefaultPrediction
        with processingTime := 2 } := by
  have h := C8_cache_idempotence envNeg mstate0 "Abc" " abc " 1 2
      [{ label := "NEGATIVE", score := 0.9 }] rfl rfl rfl
      (fun hr => by simp [mstate0] at hr) rfl
  exact ⟨h.1, h.2.1, h.2.2.1, h.2.2.2 _ rfl⟩

end Riskify
